import Mathlib

/-!
Shallow embedding of `src/contracts/fungible/data/asset.rs` from the rgb-node
repository: the fixed-point accounting amount type (`AccountingAmount`), the
`Asset` aggregate with its allocation operations, and the genesis-derivation
algorithm (`impl TryFrom<Genesis> for Asset`).

Modelling conventions:
* Rust machine integers (`u64`, `u8`, `u16`) are `Nat`; where overflow of a
  `u64` matters, the wrapping behaviour of a release build is made explicit
  with `% U64MOD` (a debug build would panic at the same program point, with
  the same divergence from saturation).
* A Rust `panic!` is modelled as the distinguished outcome `DError.panicked`.
* The `f32` type `AccountingValue` is modelled as `ℚ`; `f32::trunc`,
  `f32::fract` and the `as u64` casts are modelled exactly for the
  nonnegative in-range values on which `f32` arithmetic is itself exact
  (all concrete inputs used below are of that kind).
* `BTreeMap` is an association list with first-match lookup and
  replace-on-insert; `Vec` is a `List`.
* Types of the external `lnpbp` library (`OutPoint`, seal and state
  revelation data, the genesis accessors) are modelled at their interface,
  exactly as the reviewed code consumes them.
-/

/-- Wrap modulus of the Rust `u64` type. -/
def U64MOD : Nat := 2 ^ 64

/-- Wrap modulus of the Rust `u16` type (the `index as u16` cast of the
genesis assets loop truncates the enumeration counter modulo this). -/
def U16MOD : Nat := 2 ^ 16

/-- Largest `u64` value, `u64::MAX`. -/
def UMAX : Nat := 2 ^ 64 - 1

/-- `bitcoin::OutPoint`: a reference to one output of one transaction. -/
structure OutPoint where
  txid : Nat
  vout : Nat
deriving DecidableEq

/-- `OutpointReveal` of the lnpbp seal interface: a blinded outpoint whose
transaction id and output index are disclosed. -/
structure OutpointReveal where
  blinding : Nat
  txid : Nat
  vout : Nat
deriving DecidableEq

/-- `From<OutpointReveal> for bitcoin::OutPoint`: drop the blinding. -/
def OutpointReveal.toOutPoint (r : OutpointReveal) : OutPoint :=
  ⟨r.txid, r.vout⟩

/-- `seal::Revealed`: a revealed seal is either a direct chain-output
reference or a reference relative to the (future) witness transaction. -/
inductive SealRevealed where
  | TxOutpoint (reveal : OutpointReveal)
  | WitnessVout (vout : Nat)
deriving DecidableEq

/-- `TryFrom<seal::Revealed> for bitcoin::OutPoint` of lnpbp: a
witness-relative seal has no standalone outpoint and yields
`WitnessVoutError` (modelled as `none`). -/
def SealRevealed.outpointOf : SealRevealed → Option OutPoint
  | .TxOutpoint r => some r.toOutPoint
  | .WitnessVout _ => none

/-- `value::Revealed`: a revealed confidential amount (value + blinding). -/
structure ValueRevealed where
  value : Nat
  blinding : Nat
deriving DecidableEq

/-- `data::Revealed`: revealed custom state data; the reviewed code only
distinguishes the `U64` case from everything else. -/
inductive DataRevealed where
  | U64 (v : Nat)
  | OtherData
deriving DecidableEq

/-- `data::Revealed::u64()`: the `u64` payload if the data is a `U64`. -/
def DataRevealed.u64opt : DataRevealed → Option Nat
  | .U64 v => some v
  | .OtherData => none

/-- `OwnedState<CustomData>` (used by inflation rights): the four
revelation states of a seal/state pair. -/
inductive CustomOwnedState where
  | Revealed (seal_definition : SealRevealed) (assigned_state : DataRevealed)
  | ConfidentialSeal (assigned_state : DataRevealed)
  | ConfidentialAmount (seal_definition : SealRevealed)
  | Confidential
deriving DecidableEq

/-- `OwnedState<DiscreteFiniteFieldFormat>` (used by asset-ownership
rights): the four revelation states of a seal/value pair. -/
inductive PedersenOwnedState where
  | Revealed (seal_definition : SealRevealed) (assigned_state : ValueRevealed)
  | ConfidentialSeal (assigned_state : ValueRevealed)
  | ConfidentialAmount (seal_definition : SealRevealed)
  | Confidential
deriving DecidableEq

/-- `AccountingAmount(AtomicValue, u8)`: an atomic `u64` amount tagged with
its `fractional_bits` precision. -/
structure AccountingAmount where
  atomic : Nat
  bits : Nat
deriving DecidableEq

/-- `AccountingAmount::atomic_value()` (field `.0`). -/
def AccountingAmount.atomic_value (a : AccountingAmount) : Nat := a.atomic

/-- `AccountingAmount::fractional_bits()` (field `.1`). -/
def AccountingAmount.fractional_bits (a : AccountingAmount) : Nat := a.bits

/-- `AccountingAmount::default()`: both components are zero, in particular
the precision tag of a default amount is `0`. -/
def AccountingAmount.default : AccountingAmount := ⟨0, 0⟩

/-- `AccountingAmount::from_fractioned_atomic_value(fractional_bits,
atomic_value)`. -/
def AccountingAmount.from_fractioned_atomic_value
    (fractional_bits atomic_value : Nat) : AccountingAmount :=
  ⟨atomic_value, fractional_bits⟩

/-- `impl Add for AccountingAmount`: panics (`none`) when the precision
tags differ, otherwise adds the atomic values (wrapping as a `u64`) and
keeps the left operand's precision. -/
def AccountingAmount.add (a rhs : AccountingAmount) : Option AccountingAmount :=
  if a.fractional_bits ≠ rhs.fractional_bits then none
  else some (AccountingAmount.from_fractioned_atomic_value a.fractional_bits
    ((a.atomic_value + rhs.atomic_value) % U64MOD))

/-- `impl AddAssign for AccountingAmount`: panics (`none`) when the
precision tags differ, otherwise `self.0 += rhs.0` (wrapping as a `u64`). -/
def AccountingAmount.add_assign (a rhs : AccountingAmount) : Option AccountingAmount :=
  if a.fractional_bits ≠ rhs.fractional_bits then none
  else some ⟨(a.atomic_value + rhs.atomic_value) % U64MOD, a.bits⟩

/-- `Allocation`: one unit of ownership, keyed by node id and assignment
index, with a denormalized outpoint copy and the revealed value. -/
structure Allocation where
  node_id : Nat
  index : Nat
  outpoint : OutPoint
  value : ValueRevealed
deriving DecidableEq

/-- `Supply`: circulating/cap bookkeeping of an asset. -/
structure Supply where
  known_circulating : AccountingAmount
  is_issued_known : Option Bool
  max_cap : AccountingAmount
deriving DecidableEq

/-- `Issue`: one issuance event; `origin = none` marks the primary
(genesis) issue. -/
structure Issue where
  id : Nat
  asset_id : Nat
  amount : AccountingAmount
  origin : Option OutPoint
deriving DecidableEq

/-- `Asset`: the aggregate root of the fungible-asset state. -/
structure Asset where
  id : Nat
  ticker : String
  name : String
  description : Option String
  supply : Supply
  chain : Nat
  fractional_bits : Nat
  date : Int
  known_issues : List Issue
  known_inflation : List (OutPoint × AccountingAmount)
  unknown_inflation : AccountingAmount
  known_allocations : List (OutPoint × List Allocation)
deriving DecidableEq

/-- First-match lookup in an association list (`BTreeMap::get`). -/
def mapGet {K V : Type} [DecidableEq K] : List (K × V) → K → Option V
  | [], _ => none
  | (k', v) :: rest, k => if k' = k then some v else mapGet rest k

/-- `BTreeMap::insert`: replace the value of an existing key, or append the
new binding. -/
def mapInsert {K V : Type} [DecidableEq K] : List (K × V) → K → V → List (K × V)
  | [], k, v => [(k, v)]
  | (k', v') :: rest, k, v =>
    if k' = k then (k', v) :: rest else (k', v') :: mapInsert rest k v

/-- Replace the value bound to a present key, leaving an absent key alone
(writing through the mutable reference obtained from `entry`). -/
def mapSet {K V : Type} [DecidableEq K] : List (K × V) → K → V → List (K × V)
  | [], _, _ => []
  | (k', v') :: rest, k, v =>
    if k' = k then (k', v) :: rest else (k', v') :: mapSet rest k v

/-- `entry(k).or_insert(d)`: materialize the key with default `d` when it
is absent. -/
def entryOrInsert {K V : Type} [DecidableEq K] (m : List (K × V)) (k : K) (d : V) :
    List (K × V) :=
  if (mapGet m k).isSome then m else m ++ [(k, d)]

/-- `entry(k).or_insert(vec![]).push(a)`: append to the bucket of `k`,
creating it when absent. -/
def mapPush {K : Type} [DecidableEq K] {A : Type} :
    List (K × List A) → K → A → List (K × List A)
  | [], k, a => [(k, [a])]
  | (k', l) :: rest, k, a =>
    if k' = k then (k', l ++ [a]) :: rest else (k', l) :: mapPush rest k a

/-- `Vec::remove(position of first structurally equal element)`. -/
def eraseFirst {A : Type} [DecidableEq A] : List A → A → List A
  | [], _ => []
  | x :: rest, a => if x = a then rest else x :: eraseFirst rest a

/-- `Asset::allocations(seal)`: read-only bucket lookup (the `seal`
parameter is renamed `sealPt` because `seal` is a Lean command token). -/
def Asset.allocations (a : Asset) (sealPt : OutPoint) : Option (List Allocation) :=
  mapGet a.known_allocations sealPt

/-- `Asset::add_allocation`: builds the allocation, materializes the bucket
of the outpoint, and pushes the allocation only when no structurally equal
one is present; the `Bool` is the return value of the Rust method and the
`Asset` is the mutated receiver. -/
def Asset.add_allocation (a : Asset) (outpoint : OutPoint) (node_id index : Nat)
    (value : ValueRevealed) : Bool × Asset :=
  let new_allocation : Allocation := ⟨node_id, index, outpoint, value⟩
  let m := entryOrInsert a.known_allocations outpoint []
  let allocations := (mapGet m outpoint).getD []
  if new_allocation ∈ allocations then
    (false, { a with known_allocations := m })
  else
    (true, { a with known_allocations := mapPush a.known_allocations outpoint new_allocation })

/-- `Asset::remove_allocation`: builds the same key, materializes the
bucket of the outpoint, and removes the first structurally equal entry if
any; the `Bool` is the return value of the Rust method. -/
def Asset.remove_allocation (a : Asset) (outpoint : OutPoint) (node_id index : Nat)
    (value : ValueRevealed) : Bool × Asset :=
  let old_allocation : Allocation := ⟨node_id, index, outpoint, value⟩
  let m := entryOrInsert a.known_allocations outpoint []
  let allocations := (mapGet m outpoint).getD []
  if old_allocation ∈ allocations then
    (true, { a with known_allocations := mapSet m outpoint (eraseFirst allocations old_allocation) })
  else
    (false, { a with known_allocations := m })

/-- `schema::Error` (the variants exercised by the reviewed code). -/
inductive SchemaError where
  | WrongSchemaId
  | NotAllFieldsPresent
deriving DecidableEq

/-- The `Error` enum of `asset.rs`: a schema-domain error or the
`GenesisSeal` error produced from `WitnessVoutError`. -/
inductive AssetError where
  | Schema (e : SchemaError)
  | GenesisSeal
deriving DecidableEq

/-- Outcome domain of the derivation: a typed `asset::Error`, or a Rust
`panic!` (which the reviewed code can reach inside `AddAssign`). -/
inductive DError where
  | assetError (e : AssetError)
  | panicked
deriving DecidableEq

/-- `Genesis`, modelled at the interface the reviewed code consumes: the
declared schema / contract / node identifiers, the metadata field values
returned by the typed accessors (`u8(Precision)`, `u64(IssuedSupply)`,
`string(Ticker)`, `string(Name)`, `string(ContractText)`,
`i64(Timestamp)`), and the owned-rights entries of the `Inflation` and
`Assets` categories (`owned_rights_by_type` yields the entry of a category
when one is declared, already expanded by `to_custom_state` /
`to_discrete_state` into the list of its owned states). -/
structure Genesis where
  schema_id : Nat
  contract_id : Nat
  node_id : Nat
  chain : Nat
  precisionVals : List Nat
  issuedSupplyVals : List Nat
  tickerVals : List String
  nameVals : List String
  contractTextVals : List String
  timestampVals : List Int
  inflationAssignments : Option (List CustomOwnedState)
  assetsAssignments : Option (List PedersenOwnedState)
deriving DecidableEq

/-- Modelled from the spec: the fungible-asset schema identifier computed
by `schema::schema().schema_id()` (the `schema` module of this repository
is not part of the reviewed source). Only (in)equality with a genesis's
declared identifier is ever used, so it is an arbitrary fixed constant. -/
def expected_schema_id : Nat := 0

/-- `known_state_data()` of the lnpbp assignments interface: the revealed
state data of every owned state whose data part is known (the `Revealed`
and `ConfidentialSeal` variants). -/
def known_state_data : List CustomOwnedState → List DataRevealed
  | [] => []
  | .Revealed _ d :: rest => d :: known_state_data rest
  | .ConfidentialSeal d :: rest => d :: known_state_data rest
  | .ConfidentialAmount _ :: rest => known_state_data rest
  | .Confidential :: rest => known_state_data rest

/-- The `match data { data::Revealed::U64(cap) => *cap, _ => 0 }` mapping
used when summing declared inflation capacities. -/
def dataCap : DataRevealed → Nat
  | .U64 cap => cap
  | .OtherData => 0

/-- Sum of the known declared inflation capacities (before the `u64`
wrap of the Rust iterator sum). -/
def capSum (asgs : List CustomOwnedState) : Nat :=
  ((known_state_data asgs).map dataCap).sum

/-- One iteration of the inflation-rights loop of `try_from`, acting on
the accumulator `(known_inflation, unknown_inflation)`:
* `Revealed`: resolve the seal (`GenesisSeal` on a witness-relative one),
  read the `u64` data (`NotAllFieldsPresent` otherwise), and insert into
  `known_inflation`;
* `ConfidentialSeal`: only when `unknown_inflation` is still strictly below
  `u64::MAX`, read the `u64` data and `+=` it (the `AddAssign` panic and
  `u64` wrap are modelled faithfully);
* `ConfidentialAmount` / `Confidential`: overwrite `unknown_inflation` with
  `u64::MAX` at genesis precision. -/
def stepInflation (fb : Nat) (acc : List (OutPoint × AccountingAmount) × AccountingAmount)
    (st : CustomOwnedState) :
    Except DError (List (OutPoint × AccountingAmount) × AccountingAmount) :=
  match st with
  | .Revealed seal_definition assigned_state =>
    match seal_definition.outpointOf with
    | none => .error (.assetError .GenesisSeal)
    | some op =>
      match assigned_state.u64opt with
      | none => .error (.assetError (.Schema .NotAllFieldsPresent))
      | some v =>
        .ok (mapInsert acc.1 op (AccountingAmount.from_fractioned_atomic_value fb v), acc.2)
  | .ConfidentialSeal assigned_state =>
    if acc.2.atomic_value < UMAX then
      match assigned_state.u64opt with
      | none => .error (.assetError (.Schema .NotAllFieldsPresent))
      | some v =>
        match acc.2.add_assign (AccountingAmount.from_fractioned_atomic_value fb v) with
        | none => .error .panicked
        | some u => .ok (acc.1, u)
    else .ok acc
  | .ConfidentialAmount _ =>
    .ok (acc.1, AccountingAmount.from_fractioned_atomic_value fb UMAX)
  | .Confidential =>
    .ok (acc.1, AccountingAmount.from_fractioned_atomic_value fb UMAX)

/-- The inflation-rights loop of `try_from` over all owned states of the
`Inflation` category. -/
def processInflation (fb : Nat) :
    List CustomOwnedState →
    List (OutPoint × AccountingAmount) × AccountingAmount →
    Except DError (List (OutPoint × AccountingAmount) × AccountingAmount)
  | [], acc => .ok acc
  | st :: rest, acc =>
    match stepInflation fb acc st with
    | .error e => .error e
    | .ok acc' => processInflation fb rest acc'

/-- The assets-rights loop of `try_from`: enumerate the owned states; a
`Revealed` state whose seal is a direct `TxOutpoint` reference is pushed
into the bucket of its outpoint as an `Allocation` carrying the positional
index truncated by the `index as u16` cast (`% U16MOD`); every other state
— including a `Revealed` state with a witness-relative seal — is
skipped. -/
def processAssets (node_id : Nat) :
    List PedersenOwnedState → Nat → List (OutPoint × List Allocation) →
    List (OutPoint × List Allocation)
  | [], _, m => m
  | st :: rest, index, m =>
    let m' :=
      match st with
      | .Revealed (.TxOutpoint outpoint_reveal) assigned_state =>
        mapPush m outpoint_reveal.toOutPoint
          ⟨node_id, index % U16MOD, outpoint_reveal.toOutPoint, assigned_state⟩
      | _ => m
    processAssets node_id rest (index + 1) m'

/-- The `Asset` record literal assembled at the end of `try_from`, given
the values read from the genesis. -/
def mkAsset (g : Genesis) (fb issued : Nat) (ticker nm : String) (ts : Int)
    (ki : List (OutPoint × AccountingAmount)) (ui : AccountingAmount) : Asset :=
  let supply := AccountingAmount.from_fractioned_atomic_value fb issued
  { id := g.contract_id
    ticker := ticker
    name := nm
    description := g.contractTextVals.head?
    supply :=
      { known_circulating := supply
        is_issued_known := none
        max_cap :=
          match g.inflationAssignments with
          | some asgs =>
            AccountingAmount.from_fractioned_atomic_value fb (capSum asgs % U64MOD)
          | none => supply }
    chain := g.chain
    fractional_bits := fb
    date := ts
    known_issues := [⟨g.node_id, g.contract_id, supply, none⟩]
    known_inflation := ki
    unknown_inflation := ui
    known_allocations := processAssets g.contract_id (g.assetsAssignments.getD []) 0 [] }

/-- `impl TryFrom<Genesis> for Asset`, in the evaluation order of the
source: schema check, precision and issued-supply metadata, the inflation
loop, the assets loop, then the remaining metadata reads inside the final
record literal. -/
def Asset.tryFrom (genesis : Genesis) : Except DError Asset :=
  if genesis.schema_id ≠ expected_schema_id then
    .error (.assetError (.Schema .WrongSchemaId))
  else
    match genesis.precisionVals.head? with
    | none => .error (.assetError (.Schema .NotAllFieldsPresent))
    | some fractional_bits =>
      match genesis.issuedSupplyVals.head? with
      | none => .error (.assetError (.Schema .NotAllFieldsPresent))
      | some issued =>
        match processInflation fractional_bits (genesis.inflationAssignments.getD [])
            ([], AccountingAmount.default) with
        | .error e => .error e
        | .ok (known_inflation, unknown_inflation) =>
          match genesis.tickerVals.head? with
          | none => .error (.assetError (.Schema .NotAllFieldsPresent))
          | some ticker =>
            match genesis.nameVals.head? with
            | none => .error (.assetError (.Schema .NotAllFieldsPresent))
            | some nm =>
              match genesis.timestampVals.head? with
              | none => .error (.assetError (.Schema .NotAllFieldsPresent))
              | some ts =>
                .ok (mkAsset genesis fractional_bits issued ticker nm ts
                  known_inflation unknown_inflation)

/-- Placeholder asset used only to extract the payload of a successful
derivation. -/
def defaultAsset : Asset :=
  ⟨0, "", "", none, ⟨AccountingAmount.default, none, AccountingAmount.default⟩,
    0, 0, 0, [], [], AccountingAmount.default, []⟩

/-- The asset produced by a successful derivation of `g`. -/
def assetOf (g : Genesis) : Asset :=
  (Asset.tryFrom g).toOption.getD defaultAsset

/-- A post-derivation mutation of an `Asset`: one `add_allocation` or
`remove_allocation` call. -/
inductive AssetOp where
  | add (outpoint : OutPoint) (node_id index : Nat) (value : ValueRevealed)
  | remove (outpoint : OutPoint) (node_id index : Nat) (value : ValueRevealed)
deriving DecidableEq

/-- Apply one mutation to an asset. -/
def applyOp (a : Asset) : AssetOp → Asset
  | .add o n i v => (a.add_allocation o n i v).2
  | .remove o n i v => (a.remove_allocation o n i v).2

/-- Apply a sequence of mutations to an asset, in order. -/
def applyOps (a : Asset) (ops : List AssetOp) : Asset :=
  ops.foldl applyOp a

/-- No bucket of an allocation map contains two structurally equal
allocations. -/
def NoDupBuckets (m : List (OutPoint × List Allocation)) : Prop :=
  ∀ p b, mapGet m p = some b → b.Nodup

/-- Loop invariant of the genesis assets loop: buckets are duplicate-free
and every recorded allocation index is below the enumeration counter. -/
def AllocBound (m : List (OutPoint × List Allocation)) (i : Nat) : Prop :=
  ∀ p b, mapGet m p = some b → b.Nodup ∧ ∀ al ∈ b, al.index < i

/-- Whether some owned state of a list is `Revealed` with a
witness-relative seal (the only states from which the inflation loop can
produce the `GenesisSeal` error). -/
def hasWitnessRevealedSeal : List CustomOwnedState → Bool
  | [] => false
  | .Revealed (.WitnessVout _) _ :: _ => true
  | .Revealed (.TxOutpoint _) _ :: rest => hasWitnessRevealedSeal rest
  | .ConfidentialSeal _ :: rest => hasWitnessRevealedSeal rest
  | .ConfidentialAmount _ :: rest => hasWitnessRevealedSeal rest
  | .Confidential :: rest => hasWitnessRevealedSeal rest

/-- Concrete genesis for C1: valid metadata, no inflation rights, and one
direct-ownership (assets-category) right whose *revealed* seal is
witness-relative. -/
def cexGenesisC1 : Genesis :=
  { schema_id := expected_schema_id, contract_id := 77, node_id := 99, chain := 1
    precisionVals := [8], issuedSupplyVals := [1000]
    tickerVals := ["TCK"], nameVals := ["Token"], contractTextVals := []
    timestampVals := [1600000000]
    inflationAssignments := none
    assetsAssignments := some [.Revealed (.WitnessVout 0) ⟨5, 7⟩] }

/-- Concrete genesis for C2: precision 0 and two partially-confidential
inflation rights whose amounts sum past `u64::MAX`. -/
def cexGenesisC2 : Genesis :=
  { schema_id := expected_schema_id, contract_id := 77, node_id := 99, chain := 1
    precisionVals := [0], issuedSupplyVals := [1000]
    tickerVals := ["TCK"], nameVals := ["Token"], contractTextVals := []
    timestampVals := [1600000000]
    inflationAssignments :=
      some [.ConfidentialSeal (.U64 (U64MOD - 2)), .ConfidentialSeal (.U64 2)]
    assetsAssignments := none }

/-- Concrete genesis for the C3 witness: one fully-revealed inflation right
of capacity 42 and one fully-confidential inflation right. -/
def wGenesisC3 : Genesis :=
  { schema_id := expected_schema_id, contract_id := 77, node_id := 99, chain := 1
    precisionVals := [8], issuedSupplyVals := [1000]
    tickerVals := ["TCK"], nameVals := ["Token"], contractTextVals := []
    timestampVals := [1600000000]
    inflationAssignments := some [.Revealed (.TxOutpoint ⟨3, 2, 5⟩) (.U64 42), .Confidential]
    assetsAssignments := none }

/-- Concrete genesis for the C4 witness: two inflation rights with known
capacities 5 and 7 (precision 0 so that the partially-confidential right
does not trip the `AddAssign` precision panic). -/
def wGenesisC4 : Genesis :=
  { schema_id := expected_schema_id, contract_id := 77, node_id := 99, chain := 1
    precisionVals := [0], issuedSupplyVals := [1000]
    tickerVals := ["TCK"], nameVals := ["Token"], contractTextVals := []
    timestampVals := [1600000000]
    inflationAssignments :=
      some [.Revealed (.TxOutpoint ⟨3, 2, 5⟩) (.U64 5), .ConfidentialSeal (.U64 7)]
    assetsAssignments := none }

/-- Concrete genesis for the C5 witness: its declared schema identifier
differs from the expected one. -/
def wGenesisC5 : Genesis :=
  { schema_id := expected_schema_id + 1, contract_id := 77, node_id := 99, chain := 1
    precisionVals := [8], issuedSupplyVals := [1000]
    tickerVals := ["TCK"], nameVals := ["Token"], contractTextVals := []
    timestampVals := [1600000000]
    inflationAssignments := none
    assetsAssignments := none }

/-- Concrete genesis for the C9 witness: two revealed asset-ownership
rights bound to the same outpoint with equal values (they stay distinct
through their positional index). -/
def wGenesisC9 : Genesis :=
  { schema_id := expected_schema_id, contract_id := 77, node_id := 99, chain := 1
    precisionVals := [8], issuedSupplyVals := [1000]
    tickerVals := ["TCK"], nameVals := ["Token"], contractTextVals := []
    timestampVals := [1600000000]
    inflationAssignments := none
    assetsAssignments :=
      some [.Revealed (.TxOutpoint ⟨3, 1, 0⟩) ⟨10, 1⟩, .Revealed (.TxOutpoint ⟨4, 1, 0⟩) ⟨10, 1⟩] }

/-- Concrete mutation sequence for the C9 witness. -/
def wOpsC9 : List AssetOp :=
  [.add ⟨2, 2⟩ 77 0 ⟨10, 1⟩, .add ⟨2, 2⟩ 77 0 ⟨10, 1⟩, .remove ⟨9, 9⟩ 1 2 ⟨3, 4⟩]

/-- Concrete genesis for the C9 counterexample: `2^16 + 1` revealed
asset-ownership rights bound to the same outpoint with equal values, so
the `index as u16` truncation collides positions 0 and 65536. -/
def cexGenesisC9 : Genesis :=
  { schema_id := expected_schema_id, contract_id := 77, node_id := 99, chain := 1
    precisionVals := [0], issuedSupplyVals := [1000]
    tickerVals := ["TCK"], nameVals := ["Token"], contractTextVals := []
    timestampVals := [1600000000]
    inflationAssignments := none
    assetsAssignments :=
      some (List.replicate (U16MOD + 1) (.Revealed (.TxOutpoint ⟨3, 1, 0⟩) ⟨10, 1⟩)) }

/-! ## Association-list lemmas -/

/-- Looking up the pushed key after `mapPush` yields the old bucket with
the element appended. -/
theorem mapGet_mapPush_self {K : Type} [DecidableEq K] {A : Type}
    (m : List (K × List A)) (k : K) (a : A) :
    mapGet (mapPush m k a) k = some ((mapGet m k).getD [] ++ [a]) := by
  induction m with
  | nil => simp [mapPush, mapGet]
  | cons hd tl ih =>
    obtain ⟨k', l⟩ := hd
    by_cases hk : k' = k
    · subst hk
      simp [mapPush, mapGet]
    · simp [mapPush, mapGet, hk, ih]

/-- `mapPush` leaves the buckets of other keys unchanged. -/
theorem mapGet_mapPush_ne {K : Type} [DecidableEq K] {A : Type}
    (m : List (K × List A)) (k p : K) (a : A) (h : p ≠ k) :
    mapGet (mapPush m k a) p = mapGet m p := by
  induction m with
  | nil => simp [mapPush, mapGet, Ne.symm h]
  | cons hd tl ih =>
    obtain ⟨k', l⟩ := hd
    by_cases hk : k' = k
    · subst hk
      simp [mapPush, mapGet, Ne.symm h]
    · simp [mapPush, mapGet, hk, ih]

/-- Any bucket visible after `mapSet` is either the written value or a
bucket already present before. -/
theorem mapGet_mapSet_cases {K : Type} [DecidableEq K] {V : Type}
    (m : List (K × V)) (k : K) (v : V) (p : K) (b : V)
    (h : mapGet (mapSet m k v) p = some b) :
    b = v ∨ mapGet m p = some b := by
  induction m with
  | nil => simp [mapSet, mapGet] at h
  | cons hd tl ih =>
    obtain ⟨k', v'⟩ := hd
    by_cases hk : k' = k
    · subst hk
      by_cases hp : k' = p
      · subst hp
        simp [mapSet, mapGet] at h
        exact Or.inl h.symm
      · simp [mapSet, mapGet, hp] at h ⊢
        exact Or.inr h
    · by_cases hp : k' = p
      · subst hp
        simp [mapSet, mapGet, hk] at h ⊢
        exact Or.inr h
      · simp [mapSet, mapGet, hk, hp] at h ⊢
        exact ih h

/-- Appending a fresh binding at the end is only visible for its own key. -/
theorem mapGet_append_single {K V : Type} [DecidableEq K]
    (m : List (K × V)) (k : K) (d : V) (hk : mapGet m k = none) :
    mapGet (m ++ [(k, d)]) k = some d := by
  induction m with
  | nil => simp [mapGet]
  | cons hd tl ih =>
    obtain ⟨k', v'⟩ := hd
    by_cases hp : k' = k
    · subst hp
      simp [mapGet] at hk
    · simp [mapGet, hp] at hk ⊢
      exact ih hk

/-- `entryOrInsert` on a present key is the identity. -/
theorem entryOrInsert_of_isSome {K V : Type} [DecidableEq K]
    (m : List (K × V)) (k : K) (d : V) (h : (mapGet m k).isSome) :
    entryOrInsert m k d = m := by
  simp [entryOrInsert, h]

/-- `entryOrInsert` on an absent key appends the default binding. -/
theorem entryOrInsert_of_none {K V : Type} [DecidableEq K]
    (m : List (K × V)) (k : K) (d : V) (h : mapGet m k = none) :
    entryOrInsert m k d = m ++ [(k, d)] := by
  simp [entryOrInsert, h]

/-- Any binding visible after appending one binding at the end is either
an old binding or the appended one. -/
theorem mapGet_append_single_cases {K V : Type} [DecidableEq K]
    (m : List (K × V)) (k : K) (d : V) (p : K) (b : V)
    (h : mapGet (m ++ [(k, d)]) p = some b) :
    mapGet m p = some b ∨ b = d := by
  induction m with
  | nil =>
    by_cases hp : k = p
    · subst hp
      simp [mapGet] at h
      exact Or.inr h.symm
    · simp [mapGet, hp] at h
  | cons hd tl ih =>
    obtain ⟨k', v'⟩ := hd
    by_cases hp : k' = p
    · subst hp
      simp [mapGet] at h ⊢
      exact Or.inl h
    · simp [mapGet, hp] at h ⊢
      exact ih h

/-- Any bucket visible after `entryOrInsert` is either an old bucket or
the inserted default. -/
theorem mapGet_entryOrInsert_cases {K V : Type} [DecidableEq K]
    (m : List (K × V)) (k : K) (d : V) (p : K) (b : V)
    (h : mapGet (entryOrInsert m k d) p = some b) :
    mapGet m p = some b ∨ b = d := by
  unfold entryOrInsert at h
  by_cases hs : (mapGet m k).isSome
  · rw [if_pos hs] at h
    exact Or.inl h
  · rw [if_neg hs] at h
    exact mapGet_append_single_cases m k d p b h

/-- The bucket read back through `entry(k).or_insert(vec![])` equals the
bucket read before (absent buckets read as empty either way). -/
theorem bucket_entryOrInsert {K : Type} [DecidableEq K] {A : Type}
    (m : List (K × List A)) (k : K) :
    (mapGet (entryOrInsert m k []) k).getD [] = (mapGet m k).getD [] := by
  rcases hm : mapGet m k with _ | b
  · rw [entryOrInsert_of_none m k [] hm, mapGet_append_single m k [] hm]
    simp
  · rw [entryOrInsert_of_isSome m k [] (by simp [hm]), hm]

/-- Removing the first occurrence yields a sublist. -/
theorem eraseFirst_sublist {A : Type} [DecidableEq A] (l : List A) (a : A) :
    (eraseFirst l a).Sublist l := by
  induction l with
  | nil => simp [eraseFirst]
  | cons hd tl ih =>
    by_cases hx : hd = a
    · subst hx
      simp only [eraseFirst, if_pos rfl]
      exact List.Sublist.cons hd (List.Sublist.refl tl)
    · simp only [eraseFirst, if_neg hx]
      exact List.Sublist.cons₂ hd ih

/-- A nonempty bucket read with a default was really present. -/
theorem isSome_of_mem_bucket {K : Type} [DecidableEq K] {A : Type}
    (m : List (K × List A)) (k : K) (a : A) (h : a ∈ (mapGet m k).getD []) :
    (mapGet m k).isSome := by
  rcases hm : mapGet m k with _ | b
  · rw [hm] at h
    simp at h
  · simp

/-! ## Characterizations of the allocation mutations -/

/-- `add_allocation` when no structurally equal allocation is present:
returns `true` and appends to the bucket. -/
theorem add_allocation_not_mem (a : Asset) (o : OutPoint) (n i : Nat) (v : ValueRevealed)
    (h : (⟨n, i, o, v⟩ : Allocation) ∉ (mapGet a.known_allocations o).getD []) :
    a.add_allocation o n i v =
      (true, { a with known_allocations := mapPush a.known_allocations o ⟨n, i, o, v⟩ }) := by
  simp only [Asset.add_allocation]
  rw [bucket_entryOrInsert, if_neg h]

/-- `add_allocation` when a structurally equal allocation is present:
returns `false` and leaves the asset unchanged. -/
theorem add_allocation_mem (a : Asset) (o : OutPoint) (n i : Nat) (v : ValueRevealed)
    (h : (⟨n, i, o, v⟩ : Allocation) ∈ (mapGet a.known_allocations o).getD []) :
    a.add_allocation o n i v = (false, a) := by
  simp only [Asset.add_allocation]
  rw [bucket_entryOrInsert, if_pos h,
    entryOrInsert_of_isSome _ _ _ (isSome_of_mem_bucket _ _ _ h)]

/-- `remove_allocation` when a structurally equal allocation is present:
returns `true` and erases its first occurrence. -/
theorem remove_allocation_mem (a : Asset) (o : OutPoint) (n i : Nat) (v : ValueRevealed)
    (h : (⟨n, i, o, v⟩ : Allocation) ∈ (mapGet a.known_allocations o).getD []) :
    a.remove_allocation o n i v =
      (true,
        { a with
            known_allocations := mapSet a.known_allocations o
              (eraseFirst ((mapGet a.known_allocations o).getD []) ⟨n, i, o, v⟩) }) := by
  simp only [Asset.remove_allocation]
  rw [bucket_entryOrInsert, if_pos h,
    entryOrInsert_of_isSome _ _ _ (isSome_of_mem_bucket _ _ _ h)]

/-- `remove_allocation` when no structurally equal allocation is present:
returns `false`, but still materializes the bucket of the outpoint. -/
theorem remove_allocation_not_mem (a : Asset) (o : OutPoint) (n i : Nat) (v : ValueRevealed)
    (h : (⟨n, i, o, v⟩ : Allocation) ∉ (mapGet a.known_allocations o).getD []) :
    a.remove_allocation o n i v =
      (false, { a with known_allocations := entryOrInsert a.known_allocations o [] }) := by
  simp only [Asset.remove_allocation]
  rw [bucket_entryOrInsert, if_neg h]

/-! ## Claim theorems (first batch) -/

/-- C5: for every genesis whose declared schema identifier differs from
the expected fungible-asset schema identifier, genesis derivation fails
with the `WrongSchemaId` schema-domain error, so no `Asset` is produced. -/
theorem C5_wrong_schema_id (g : Genesis) (h : g.schema_id ≠ expected_schema_id) :
    Asset.tryFrom g = .error (.assetError (.Schema .WrongSchemaId)) := by
  unfold Asset.tryFrom
  rw [if_pos h]

/-- Witness for C5 at a concrete genesis with a wrong schema identifier. -/
theorem C5_wrong_schema_id_witness :
    wGenesisC5.schema_id ≠ expected_schema_id ∧
      Asset.tryFrom wGenesisC5 = .error (.assetError (.Schema .WrongSchemaId)) :=
  ⟨by decide, C5_wrong_schema_id wGenesisC5 (by decide)⟩

/-- C7: when no structurally equal allocation is present, calling
`add_allocation` twice with identical arguments makes the first call
return `true`, the second call return `false`, and leaves the bucket of
the outpoint with exactly one more matching entry than before the first
call. -/
theorem C7_add_allocation_idempotent (a : Asset) (o : OutPoint) (n i : Nat) (v : ValueRevealed)
    (h : (⟨n, i, o, v⟩ : Allocation) ∉ (mapGet a.known_allocations o).getD []) :
    (a.add_allocation o n i v).1 = true ∧
    ((a.add_allocation o n i v).2.add_allocation o n i v).1 = false ∧
    ((mapGet ((a.add_allocation o n i v).2.add_allocation o n i v).2.known_allocations o).getD
        []).count ⟨n, i, o, v⟩ =
      ((mapGet a.known_allocations o).getD []).count ⟨n, i, o, v⟩ + 1 := by
  have e1 := add_allocation_not_mem a o n i v h
  have hb : (mapGet (mapPush a.known_allocations o ⟨n, i, o, v⟩) o).getD [] =
      (mapGet a.known_allocations o).getD [] ++ [⟨n, i, o, v⟩] := by
    rw [mapGet_mapPush_self]
    rfl
  have hmem : (⟨n, i, o, v⟩ : Allocation) ∈
      (mapGet (mapPush a.known_allocations o ⟨n, i, o, v⟩) o).getD [] := by
    rw [hb]
    exact List.mem_append_right _ (List.mem_singleton_self _)
  have e2 := add_allocation_mem
    { a with known_allocations := mapPush a.known_allocations o ⟨n, i, o, v⟩ } o n i v hmem
  refine ⟨by rw [e1], by rw [e1]; rw [e2], ?_⟩
  rw [e1]
  rw [e2]
  simp only [hb, List.count_append]
  simp [List.count_cons]

/-- Witness for C7 on a concrete asset with an empty allocation index. -/
theorem C7_add_allocation_idempotent_witness :
    ((⟨5, 6, ⟨1, 1⟩, ⟨2, 3⟩⟩ : Allocation) ∉
        (mapGet defaultAsset.known_allocations ⟨1, 1⟩).getD []) ∧
    ((defaultAsset.add_allocation ⟨1, 1⟩ 5 6 ⟨2, 3⟩).1 = true ∧
      ((defaultAsset.add_allocation ⟨1, 1⟩ 5 6 ⟨2, 3⟩).2.add_allocation ⟨1, 1⟩ 5 6 ⟨2, 3⟩).1 =
        false ∧
      ((mapGet ((defaultAsset.add_allocation ⟨1, 1⟩ 5 6
            ⟨2, 3⟩).2.add_allocation ⟨1, 1⟩ 5 6 ⟨2, 3⟩).2.known_allocations ⟨1, 1⟩).getD
          []).count ⟨5, 6, ⟨1, 1⟩, ⟨2, 3⟩⟩ =
        ((mapGet defaultAsset.known_allocations ⟨1, 1⟩).getD []).count ⟨5, 6, ⟨1, 1⟩, ⟨2, 3⟩⟩ +
          1) :=
  ⟨by decide, C7_add_allocation_idempotent defaultAsset ⟨1, 1⟩ 5 6 ⟨2, 3⟩ (by decide)⟩

/-- C8: adding amounts with differing `fractional_bits` fails fatally
(modelled as `none`) for both `Add` and `AddAssign`, and either operation
completes normally only when the precision tags coincide. -/
theorem C8_add_precision_mismatch_fatal (a b : AccountingAmount) :
    (a.fractional_bits ≠ b.fractional_bits → a.add b = none ∧ a.add_assign b = none) ∧
    ((a.add b).isSome → a.fractional_bits = b.fractional_bits) ∧
    ((a.add_assign b).isSome → a.fractional_bits = b.fractional_bits) := by
  by_cases h : a.fractional_bits = b.fractional_bits <;>
    simp [AccountingAmount.add, AccountingAmount.add_assign, h]

/-- Witness for C8 at operands of precision 0 and 3. -/
theorem C8_add_precision_mismatch_fatal_witness :
    AccountingAmount.add ⟨1, 0⟩ ⟨2, 3⟩ = none ∧
      AccountingAmount.add_assign ⟨1, 0⟩ ⟨2, 3⟩ = none :=
  (C8_add_precision_mismatch_fatal ⟨1, 0⟩ ⟨2, 3⟩).1 (by decide)

/-- C10: on an outpoint with no bucket, `remove_allocation` reports no
removal but inserts an empty bucket, so a subsequent `allocations` lookup
returns an existing-but-empty bucket where it returned the absent value
before. -/
theorem C10_remove_allocation_absent_inserts_empty_bucket (a : Asset) (o : OutPoint)
    (n i : Nat) (v : ValueRevealed) (h : a.allocations o = none) :
    (a.remove_allocation o n i v).1 = false ∧
    (a.remove_allocation o n i v).2.allocations o = some [] := by
  have hm : mapGet a.known_allocations o = none := h
  have e := remove_allocation_not_mem a o n i v (by rw [hm]; simp)
  refine ⟨by rw [e], ?_⟩
  rw [e]
  show mapGet (entryOrInsert a.known_allocations o []) o = some []
  rw [entryOrInsert_of_none _ _ _ hm]
  exact mapGet_append_single _ _ _ hm

/-- Witness for C10 on a concrete asset with an empty allocation index. -/
theorem C10_remove_allocation_absent_witness :
    defaultAsset.allocations ⟨1, 1⟩ = none ∧
      ((defaultAsset.remove_allocation ⟨1, 1⟩ 5 6 ⟨2, 3⟩).1 = false ∧
        (defaultAsset.remove_allocation ⟨1, 1⟩ 5 6 ⟨2, 3⟩).2.allocations ⟨1, 1⟩ = some []) :=
  ⟨by rfl, C10_remove_allocation_absent_inserts_empty_bucket defaultAsset ⟨1, 1⟩ 5 6 ⟨2, 3⟩
    (by rfl)⟩

/-! ## Characterization of successful derivation -/

/-- Anatomy of a successful run of `Asset.tryFrom`: every mandatory
metadata field is present, the inflation loop succeeded, and the returned
asset is the assembled record. -/
theorem tryFrom_ok_elim (g : Genesis) (a : Asset) (h : Asset.tryFrom g = .ok a) :
    ∃ fb issued ticker nm ts ki ui,
      g.schema_id = expected_schema_id ∧
      g.precisionVals.head? = some fb ∧
      g.issuedSupplyVals.head? = some issued ∧
      g.tickerVals.head? = some ticker ∧
      g.nameVals.head? = some nm ∧
      g.timestampVals.head? = some ts ∧
      processInflation fb (g.inflationAssignments.getD []) ([], AccountingAmount.default) =
        .ok (ki, ui) ∧
      a = mkAsset g fb issued ticker nm ts ki ui := by
  unfold Asset.tryFrom at h
  split at h
  · exact Except.noConfusion h
  next hs =>
    split at h
    · exact Except.noConfusion h
    next fb hfb =>
      split at h
      · exact Except.noConfusion h
      next issued hissued =>
        split at h
        · exact Except.noConfusion h
        next ki ui hok =>
          split at h
          · exact Except.noConfusion h
          next ticker hticker =>
            split at h
            · exact Except.noConfusion h
            next nm hnm =>
              split at h
              · exact Except.noConfusion h
              next ts hts =>
                rw [Except.ok.injEq] at h
                subst h
                exact ⟨fb, issued, ticker, nm, ts, ki, ui, not_not.mp hs, hfb, hissued,
                  hticker, hnm, hts, hok, rfl⟩

/-! ## The fully-confidential dominance argument -/

/-- One loop step never brings `unknown_inflation` down from `u64::MAX`. -/
theorem stepInflation_preserves_umax (fb : Nat) (st : CustomOwnedState)
    (m : List (OutPoint × AccountingAmount)) (u : AccountingAmount)
    (acc' : List (OutPoint × AccountingAmount) × AccountingAmount)
    (hu : u.atomic_value = UMAX) (h : stepInflation fb (m, u) st = .ok acc') :
    acc'.2.atomic_value = UMAX := by
  cases st with
  | Revealed s d =>
    simp only [stepInflation] at h
    split at h
    · exact Except.noConfusion h
    · split at h
      · exact Except.noConfusion h
      · rw [Except.ok.injEq] at h
        subst h
        exact hu
  | ConfidentialSeal d =>
    simp only [stepInflation] at h
    split at h
    next hlt =>
      exfalso
      have : u.atomic_value < UMAX := hlt
      omega
    next =>
      rw [Except.ok.injEq] at h
      subst h
      exact hu
  | ConfidentialAmount s =>
    simp only [stepInflation] at h
    rw [Except.ok.injEq] at h
    subst h
    rfl
  | Confidential =>
    simp only [stepInflation] at h
    rw [Except.ok.injEq] at h
    subst h
    rfl

/-- Once `unknown_inflation` equals `u64::MAX`, the rest of the inflation
loop keeps it there. -/
theorem processInflation_preserves_umax (fb : Nat) (sts : List CustomOwnedState)
    (m : List (OutPoint × AccountingAmount)) (u : AccountingAmount)
    (ki : List (OutPoint × AccountingAmount)) (ui : AccountingAmount)
    (hu : u.atomic_value = UMAX)
    (h : processInflation fb sts (m, u) = .ok (ki, ui)) :
    ui.atomic_value = UMAX := by
  induction sts generalizing m u with
  | nil =>
    simp only [processInflation, Except.ok.injEq, Prod.mk.injEq] at h
    rw [← h.2]
    exact hu
  | cons st rest ih =>
    simp only [processInflation] at h
    split at h
    · exact Except.noConfusion h
    next acc' hstep =>
      have h2 := stepInflation_preserves_umax fb st m u acc' hu hstep
      exact ih acc'.1 acc'.2 h2 h

/-- If the inflation loop runs to completion over a list of states that
contains a fully-confidential one, the final `unknown_inflation` carries
the `u64::MAX` atomic value, wherever in the list that state sits. -/
theorem processInflation_confidential_mem (fb : Nat) (sts : List CustomOwnedState)
    (m : List (OutPoint × AccountingAmount)) (u : AccountingAmount)
    (ki : List (OutPoint × AccountingAmount)) (ui : AccountingAmount)
    (hmem : CustomOwnedState.Confidential ∈ sts)
    (h : processInflation fb sts (m, u) = .ok (ki, ui)) :
    ui.atomic_value = UMAX := by
  induction sts generalizing m u with
  | nil => simp at hmem
  | cons st rest ih =>
    simp only [processInflation] at h
    split at h
    · exact Except.noConfusion h
    next acc' hstep =>
      rcases List.mem_cons.mp hmem with h1 | h1
      · have hst : st = CustomOwnedState.Confidential := h1.symm
        subst hst
        simp only [stepInflation, Except.ok.injEq] at hstep
        subst hstep
        exact processInflation_preserves_umax fb rest m
          (AccountingAmount.from_fractioned_atomic_value fb UMAX) ki ui rfl h
      · exact ih acc'.1 acc'.2 h1 h

/-- C3: whenever genesis derivation succeeds on inflation rights that
include a fully-confidential state, the resulting `unknown_inflation`
carries the maximum representable atomic value, in whatever order the
states are processed; in particular a genesis with one fully-revealed
inflation right of capacity `c` and one fully-confidential right (in
either order) yields `unknown_inflation = u64::MAX` and a
`known_inflation` with exactly the one entry of value `c`. -/
theorem C3_fully_confidential_dominates :
    (∀ g a asgs, Asset.tryFrom g = .ok a → g.inflationAssignments = some asgs →
        CustomOwnedState.Confidential ∈ asgs →
        a.unknown_inflation.atomic_value = UMAX) ∧
    (∀ g a (r : OutpointReveal) (c : Nat) asgs, Asset.tryFrom g = .ok a →
        g.inflationAssignments = some asgs →
        (asgs = [.Revealed (.TxOutpoint r) (.U64 c), .Confidential] ∨
          asgs = [.Confidential, .Revealed (.TxOutpoint r) (.U64 c)]) →
        a.unknown_inflation.atomic_value = UMAX ∧
        a.known_inflation = [(r.toOutPoint, ⟨c, a.fractional_bits⟩)]) := by
  constructor
  · intro g a asgs h hI hmem
    obtain ⟨fb, issued, ticker, nm, ts, ki, ui, _, _, _, _, _, _, hok, ha⟩ :=
      tryFrom_ok_elim g a h
    subst ha
    rw [hI] at hok
    simp only [Option.getD_some] at hok
    exact processInflation_confidential_mem fb asgs [] AccountingAmount.default ki ui hmem hok
  · intro g a r c asgs h hI hcase
    obtain ⟨fb, issued, ticker, nm, ts, ki, ui, _, _, _, _, _, _, hok, ha⟩ :=
      tryFrom_ok_elim g a h
    subst ha
    rw [hI] at hok
    simp only [Option.getD_some] at hok
    rcases hcase with hc | hc
    · subst hc
      have hcomp : processInflation fb
          [CustomOwnedState.Revealed (.TxOutpoint r) (.U64 c), .Confidential]
          ([], AccountingAmount.default) =
          .ok ([(r.toOutPoint, ⟨c, fb⟩)], ⟨UMAX, fb⟩) := rfl
      rw [hcomp, Except.ok.injEq, Prod.mk.injEq] at hok
      obtain ⟨hki, hui⟩ := hok
      subst hki
      subst hui
      exact ⟨rfl, rfl⟩
    · subst hc
      have hcomp : processInflation fb
          [CustomOwnedState.Confidential, .Revealed (.TxOutpoint r) (.U64 c)]
          ([], AccountingAmount.default) =
          .ok ([(r.toOutPoint, ⟨c, fb⟩)], ⟨UMAX, fb⟩) := rfl
      rw [hcomp, Except.ok.injEq, Prod.mk.injEq] at hok
      obtain ⟨hki, hui⟩ := hok
      subst hki
      subst hui
      exact ⟨rfl, rfl⟩

/-- Witness for C3 at a concrete genesis with one revealed inflation right
of capacity 42 and one fully-confidential inflation right. -/
theorem C3_fully_confidential_dominates_witness :
    Asset.tryFrom wGenesisC3 = .ok (assetOf wGenesisC3) ∧
      ((assetOf wGenesisC3).unknown_inflation.atomic_value = UMAX ∧
        (assetOf wGenesisC3).known_inflation =
          [((⟨2, 5⟩ : OutPoint), ⟨42, (assetOf wGenesisC3).fractional_bits⟩)]) :=
  ⟨by rfl,
    C3_fully_confidential_dominates.2 wGenesisC3 (assetOf wGenesisC3) ⟨3, 2, 5⟩ 42
      [.Revealed (.TxOutpoint ⟨3, 2, 5⟩) (.U64 42), .Confidential]
      (by rfl) (by rfl) (Or.inl rfl)⟩

/-- C4: on every successful derivation, if the genesis declares inflation
rights then `max_cap` is the sum (at genesis precision) of their known
capacity values, and if it declares none then `max_cap` equals the
genesis-issued supply exactly. -/
theorem C4_max_cap (g : Genesis) (a : Asset) (h : Asset.tryFrom g = .ok a) :
    (∀ asgs, g.inflationAssignments = some asgs → capSum asgs < U64MOD →
        a.supply.max_cap = ⟨capSum asgs, a.fractional_bits⟩) ∧
    (g.inflationAssignments = none →
        a.supply.max_cap = a.supply.known_circulating ∧
        ∀ s, g.issuedSupplyVals.head? = some s →
          a.supply.known_circulating.atomic_value = s) := by
  obtain ⟨fb, issued, ticker, nm, ts, ki, ui, _, hfb, hissued, _, _, _, hok, ha⟩ :=
    tryFrom_ok_elim g a h
  subst ha
  constructor
  · intro asgs hI hlt
    simp only [mkAsset, hI]
    rw [Nat.mod_eq_of_lt hlt]
    rfl
  · intro hI
    refine ⟨?_, ?_⟩
    · simp only [mkAsset, hI]
    · intro s hs
      rw [hissued, Option.some.injEq] at hs
      subst hs
      rfl

/-- Witness for C4 at a concrete genesis with known capacities 5 and 7. -/
theorem C4_max_cap_witness :
    Asset.tryFrom wGenesisC4 = .ok (assetOf wGenesisC4) ∧
      capSum [.Revealed (.TxOutpoint ⟨3, 2, 5⟩) (.U64 5), .ConfidentialSeal (.U64 7)] <
        U64MOD ∧
      (assetOf wGenesisC4).supply.max_cap =
        ⟨capSum [.Revealed (.TxOutpoint ⟨3, 2, 5⟩) (.U64 5), .ConfidentialSeal (.U64 7)],
          (assetOf wGenesisC4).fractional_bits⟩ :=
  ⟨by rfl, by decide,
    (C4_max_cap wGenesisC4 (assetOf wGenesisC4) (by rfl)).1
      [.Revealed (.TxOutpoint ⟨3, 2, 5⟩) (.U64 5), .ConfidentialSeal (.U64 7)]
      (by rfl) (by decide)⟩

/-! ## Where the GenesisSeal error can come from -/

/-- A witness-free head state keeps the witness-freeness of the tail. -/
theorem hasWitnessRevealedSeal_cons_false (st : CustomOwnedState)
    (rest : List CustomOwnedState) (hw : hasWitnessRevealedSeal (st :: rest) = false) :
    hasWitnessRevealedSeal rest = false := by
  cases st with
  | Revealed s d => cases s <;> simp_all [hasWitnessRevealedSeal]
  | ConfidentialSeal d => simpa [hasWitnessRevealedSeal] using hw
  | ConfidentialAmount s => simpa [hasWitnessRevealedSeal] using hw
  | Confidential => simpa [hasWitnessRevealedSeal] using hw

/-- The only loop step that can raise `GenesisSeal` is a revealed state
whose seal is witness-relative. -/
theorem stepInflation_error_genesis_seal (fb : Nat)
    (acc : List (OutPoint × AccountingAmount) × AccountingAmount) (st : CustomOwnedState)
    (h : stepInflation fb acc st = .error (.assetError .GenesisSeal)) :
    ∃ w d, st = .Revealed (.WitnessVout w) d := by
  cases st with
  | Revealed s d =>
    cases s with
    | TxOutpoint r =>
      exfalso
      cases d with
      | U64 v => simp [stepInflation, SealRevealed.outpointOf, DataRevealed.u64opt] at h
      | OtherData => simp [stepInflation, SealRevealed.outpointOf, DataRevealed.u64opt] at h
    | WitnessVout w => exact ⟨w, d, rfl⟩
  | ConfidentialSeal d =>
    exfalso
    simp only [stepInflation] at h
    split at h
    · cases d with
      | U64 v =>
        simp only [DataRevealed.u64opt] at h
        split at h
        · simp at h
        · exact Except.noConfusion h
      | OtherData => simp [DataRevealed.u64opt] at h
    · exact Except.noConfusion h
  | ConfidentialAmount s => simp [stepInflation] at h
  | Confidential => simp [stepInflation] at h

/-- If no revealed inflation state has a witness-relative seal, the
inflation loop never fails with `GenesisSeal`. -/
theorem processInflation_ne_genesis_seal (fb : Nat) (sts : List CustomOwnedState)
    (acc : List (OutPoint × AccountingAmount) × AccountingAmount)
    (hw : hasWitnessRevealedSeal sts = false) :
    processInflation fb sts acc ≠ .error (.assetError .GenesisSeal) := by
  induction sts generalizing acc with
  | nil => simp [processInflation]
  | cons st rest ih =>
    intro hcon
    simp only [processInflation] at hcon
    rcases hstep : stepInflation fb acc st with e | acc' <;> rw [hstep] at hcon
    · have he : e = .assetError .GenesisSeal := Except.error.inj hcon
      subst he
      obtain ⟨w, d, rfl⟩ := stepInflation_error_genesis_seal fb acc st hstep
      simp [hasWitnessRevealedSeal] at hw
    · exact ih acc' (hasWitnessRevealedSeal_cons_false st rest hw) hcon

/-- C1 (amended): a revealed assets-category right with a witness-relative
seal is silently skipped by genesis derivation; the `GenesisSeal` failure
can only originate from the inflation-category loop, so a genesis whose
inflation rights are free of witness-relative revealed seals never fails
with `GenesisSeal`, whatever its assets-category rights contain. -/
theorem C1_genesis_seal_only_from_inflation (g : Genesis)
    (hw : hasWitnessRevealedSeal (g.inflationAssignments.getD []) = false) :
    Asset.tryFrom g ≠ .error (.assetError .GenesisSeal) := by
  intro hcon
  unfold Asset.tryFrom at hcon
  split at hcon
  · simp at hcon
  · split at hcon
    · simp at hcon
    next fb hfb =>
      split at hcon
      · simp at hcon
      next issued hissued =>
        split at hcon
        next e heq =>
          have he : e = .assetError .GenesisSeal := Except.error.inj hcon
          subst he
          exact processInflation_ne_genesis_seal fb (g.inflationAssignments.getD [])
            ([], AccountingAmount.default) hw heq
        next ki ui heq =>
          split at hcon
          · simp at hcon
          · split at hcon
            · simp at hcon
            · split at hcon
              · simp at hcon
              · exact Except.noConfusion hcon

/-- Witness for the amended C1 at the counterexample genesis itself (its
inflation section is empty, its assets section carries the
witness-relative revealed seal). -/
theorem C1_genesis_seal_only_from_inflation_witness :
    hasWitnessRevealedSeal (cexGenesisC1.inflationAssignments.getD []) = false ∧
      Asset.tryFrom cexGenesisC1 ≠ .error (.assetError .GenesisSeal) :=
  ⟨by rfl, C1_genesis_seal_only_from_inflation cexGenesisC1 (by rfl)⟩

/-- Counterexample to C1 as stated: a genesis carrying an assets-category
owned right whose revealed seal is witness-relative derives successfully
into an `Asset` (with the offending right silently dropped from
`known_allocations`) instead of failing with `GenesisSeal`. -/
theorem C1_assets_witness_seal_counterexample :
    cexGenesisC1.assetsAssignments =
        some [.Revealed (.WitnessVout 0) ⟨5, 7⟩] ∧
      Asset.tryFrom cexGenesisC1 = .ok (assetOf cexGenesisC1) ∧
      (assetOf cexGenesisC1).known_allocations = [] :=
  ⟨rfl, rfl, rfl⟩

/-- C2 (code evaluated at the failing input): with precision 0 and two
partially-confidential inflation amounts `u64::MAX - 1` and `2`, the
accumulated `unknown_inflation` wraps around to 0 instead of saturating at
`u64::MAX`; moreover with a nonzero precision the very first accumulation
panics, because the accumulator is default-initialized with precision 0. -/
theorem C2_unknown_inflation_wraps :
    Asset.tryFrom cexGenesisC2 = .ok (assetOf cexGenesisC2) ∧
      (assetOf cexGenesisC2).unknown_inflation = ⟨0, 0⟩ ∧
      processInflation 2 [.ConfidentialSeal (.U64 1)] ([], AccountingAmount.default) =
        .error .panicked :=
  ⟨rfl, rfl, rfl⟩

/-! ## The duplicate-free invariant -/

/-- The allocation-index bound is monotone. -/
theorem allocBound_mono (m : List (OutPoint × List Allocation)) (i j : Nat)
    (hm : AllocBound m i) (hij : i ≤ j) : AllocBound m j := by
  intro p b hb
  obtain ⟨h1, h2⟩ := hm p b hb
  exact ⟨h1, fun al hal => lt_of_lt_of_le (h2 al hal) hij⟩

/-- Pushing an allocation carrying the current counter as its index
preserves the invariant with the counter bumped. -/
theorem allocBound_push (m : List (OutPoint × List Allocation)) (i nid : Nat)
    (op : OutPoint) (v : ValueRevealed) (hm : AllocBound m i) :
    AllocBound (mapPush m op ⟨nid, i, op, v⟩) (i + 1) := by
  intro p b hb
  by_cases hp : p = op
  · subst hp
    rw [mapGet_mapPush_self, Option.some.injEq] at hb
    subst hb
    rcases hmo : mapGet m p with _ | ob
    · refine ⟨by simp, ?_⟩
      intro al hal
      simp only [Option.getD_none, List.nil_append, List.mem_singleton] at hal
      subst hal
      exact Nat.lt_succ_self i
    · simp only [Option.getD_some]
      obtain ⟨hnd, hlt⟩ := hm p ob hmo
      constructor
      · rw [List.nodup_append]
        refine ⟨hnd, List.nodup_singleton _, ?_⟩
        intro x hx
        simp only [List.mem_singleton]
        intro hxe
        subst hxe
        have := hlt _ hx
        simp at this
      · intro al hal
        rcases List.mem_append.mp hal with h1 | h1
        · exact Nat.lt_succ_of_lt (hlt al h1)
        · simp at h1
          subst h1
          exact Nat.lt_succ_self i
  · rw [mapGet_mapPush_ne m op p _ hp] at hb
    obtain ⟨h1, h2⟩ := hm p b hb
    exact ⟨h1, fun al hal => Nat.lt_succ_of_lt (h2 al hal)⟩

/-- The genesis assets loop preserves the invariant, ending with all
indices below the initial counter plus the number of processed states. -/
theorem processAssets_allocBound (nid : Nat) (sts : List PedersenOwnedState) :
    ∀ (i : Nat) (m : List (OutPoint × List Allocation)), i + sts.length ≤ U16MOD →
      AllocBound m i → AllocBound (processAssets nid sts i m) (i + sts.length) := by
  induction sts with
  | nil =>
    intro i m _ hm
    simpa [processAssets] using hm
  | cons st rest ih =>
    intro i m hbnd hm
    have hlen : i + (st :: rest).length = (i + 1) + rest.length := by
      simp [List.length_cons]
      omega
    have hbnd' : (i + 1) + rest.length ≤ U16MOD := by
      rw [← hlen]
      exact hbnd
    rw [hlen]
    cases st with
    | Revealed s v =>
      cases s with
      | TxOutpoint r =>
        simp only [processAssets]
        have hi : i % U16MOD = i := by
          apply Nat.mod_eq_of_lt
          have := hbnd
          simp [List.length_cons] at this
          omega
        rw [hi]
        exact ih (i + 1) _ hbnd' (allocBound_push m i nid r.toOutPoint v hm)
      | WitnessVout w =>
        simp only [processAssets]
        exact ih (i + 1) m hbnd' (allocBound_mono m i (i + 1) hm (Nat.le_succ i))
    | ConfidentialSeal v =>
      simp only [processAssets]
      exact ih (i + 1) m hbnd' (allocBound_mono m i (i + 1) hm (Nat.le_succ i))
    | ConfidentialAmount s =>
      simp only [processAssets]
      exact ih (i + 1) m hbnd' (allocBound_mono m i (i + 1) hm (Nat.le_succ i))
    | Confidential =>
      simp only [processAssets]
      exact ih (i + 1) m hbnd' (allocBound_mono m i (i + 1) hm (Nat.le_succ i))

/-- `add_allocation` preserves duplicate-freeness of all buckets. -/
theorem add_allocation_preserves_nodup (a : Asset) (o : OutPoint) (n i : Nat)
    (v : ValueRevealed) (h : NoDupBuckets a.known_allocations) :
    NoDupBuckets (a.add_allocation o n i v).2.known_allocations := by
  by_cases hmem : (⟨n, i, o, v⟩ : Allocation) ∈ (mapGet a.known_allocations o).getD []
  · rw [add_allocation_mem a o n i v hmem]
    exact h
  · rw [add_allocation_not_mem a o n i v hmem]
    intro p b hb
    by_cases hp : p = o
    · subst hp
      rw [mapGet_mapPush_self, Option.some.injEq] at hb
      subst hb
      rcases hmo : mapGet a.known_allocations p with _ | ob
      · simp
      · simp only [Option.getD_some]
        rw [hmo] at hmem
        simp only [Option.getD_some] at hmem
        rw [List.nodup_append]
        refine ⟨h p ob hmo, List.nodup_singleton _, ?_⟩
        intro x hx
        simp only [List.mem_singleton]
        intro hxe
        subst hxe
        exact hmem hx
    · rw [mapGet_mapPush_ne _ _ _ _ hp] at hb
      exact h p b hb

/-- `remove_allocation` preserves duplicate-freeness of all buckets. -/
theorem remove_allocation_preserves_nodup (a : Asset) (o : OutPoint) (n i : Nat)
    (v : ValueRevealed) (h : NoDupBuckets a.known_allocations) :
    NoDupBuckets (a.remove_allocation o n i v).2.known_allocations := by
  by_cases hmem : (⟨n, i, o, v⟩ : Allocation) ∈ (mapGet a.known_allocations o).getD []
  · rw [remove_allocation_mem a o n i v hmem]
    intro p b hb
    rcases mapGet_mapSet_cases _ _ _ _ _ hb with hbv | hbold
    · subst hbv
      rcases hmo : mapGet a.known_allocations o with _ | ob
      · exact absurd hmem (by rw [hmo]; simp)
      · have hnd := h o ob hmo
        simp only [Option.getD_some]
        exact List.Nodup.sublist (eraseFirst_sublist _ _) hnd
    · exact h p b hbold
  · rw [remove_allocation_not_mem a o n i v hmem]
    intro p b hb
    rcases mapGet_entryOrInsert_cases _ _ _ _ _ hb with hbold | hbd
    · exact h p b hbold
    · subst hbd
      simp

/-- Every single mutation preserves duplicate-freeness. -/
theorem applyOp_preserves_nodup (a : Asset) (op : AssetOp)
    (h : NoDupBuckets a.known_allocations) :
    NoDupBuckets (applyOp a op).known_allocations := by
  cases op with
  | add o n i v => exact add_allocation_preserves_nodup a o n i v h
  | remove o n i v => exact remove_allocation_preserves_nodup a o n i v h

/-- Every mutation sequence preserves duplicate-freeness. -/
theorem applyOps_preserves_nodup (ops : List AssetOp) :
    ∀ (a : Asset), NoDupBuckets a.known_allocations →
      NoDupBuckets (applyOps a ops).known_allocations := by
  induction ops with
  | nil =>
    intro a h
    simpa [applyOps] using h
  | cons op rest ih =>
    intro a h
    have : applyOps a (op :: rest) = applyOps (applyOp a op) rest := rfl
    rw [this]
    exact ih (applyOp a op) (applyOp_preserves_nodup a op h)

/-- C9 (amended): for an asset obtained by genesis derivation from at most
`2^16` assets-category owned states — so that the `index as u16`
truncation of the positional index is injective — and then mutated by any
sequence of `add_allocation` / `remove_allocation` calls, no bucket of
`known_allocations` ever holds two structurally equal allocations: the
invariant is established at derivation (the truncated indices stay
strictly increasing) and preserved by every mutation. Beyond `2^16`
states the truncation collides indices and derivation itself can create
duplicates (see the counterexample). -/
theorem C9_no_duplicate_allocations (g : Genesis) (a : Asset) (ops : List AssetOp)
    (h : Asset.tryFrom g = .ok a)
    (hlen : (g.assetsAssignments.getD []).length ≤ U16MOD) :
    NoDupBuckets (applyOps a ops).known_allocations := by
  obtain ⟨fb, issued, ticker, nm, ts, ki, ui, _, _, _, _, _, _, _, ha⟩ :=
    tryFrom_ok_elim g a h
  subst ha
  apply applyOps_preserves_nodup
  intro p b hb
  have hbase : AllocBound ([] : List (OutPoint × List Allocation)) 0 := by
    intro p' b' hb'
    simp [mapGet] at hb'
  exact (processAssets_allocBound g.contract_id (g.assetsAssignments.getD []) 0 []
    (by simpa using hlen) hbase p b hb).1

/-- Witness for C9: a derived asset with two same-outpoint genesis
allocations, then two identical adds and one remove on absent data. -/
theorem C9_no_duplicate_allocations_witness :
    Asset.tryFrom wGenesisC9 = .ok (assetOf wGenesisC9) ∧
      (wGenesisC9.assetsAssignments.getD []).length ≤ U16MOD ∧
      ([⟨77, 0, ⟨1, 0⟩, ⟨10, 1⟩⟩, ⟨77, 1, ⟨1, 0⟩, ⟨10, 1⟩⟩] : List Allocation).Nodup :=
  ⟨by rfl, by decide,
    C9_no_duplicate_allocations wGenesisC9 (assetOf wGenesisC9) wOpsC9 (by rfl) (by decide)
      ⟨1, 0⟩ [⟨77, 0, ⟨1, 0⟩, ⟨10, 1⟩⟩, ⟨77, 1, ⟨1, 0⟩, ⟨10, 1⟩⟩] (by rfl)⟩

/-- The genesis assets loop over a run of identical revealed states bound
to one outpoint: the bucket collects one allocation per position, each
index truncated by the `u16` cast. -/
theorem processAssets_replicate_single (nid : Nat) (r : OutpointReveal) (v : ValueRevealed) :
    ∀ (k i : Nat) (b : List Allocation),
      processAssets nid
          (List.replicate k (PedersenOwnedState.Revealed (.TxOutpoint r) v)) i
          [(r.toOutPoint, b)] =
        [(r.toOutPoint,
          b ++ (List.range k).map
            (fun p => (⟨nid, (i + p) % U16MOD, r.toOutPoint, v⟩ : Allocation)))] := by
  intro k
  induction k with
  | zero =>
    intro i b
    simp [processAssets]
  | succ k ih =>
    intro i b
    rw [List.replicate_succ]
    simp only [processAssets]
    rw [show mapPush [(r.toOutPoint, b)] r.toOutPoint
        (⟨nid, i % U16MOD, r.toOutPoint, v⟩ : Allocation) =
        [(r.toOutPoint, b ++ [⟨nid, i % U16MOD, r.toOutPoint, v⟩])] from by
      simp [mapPush]]
    rw [ih, List.append_assoc]
    have hlist : (⟨nid, i % U16MOD, r.toOutPoint, v⟩ : Allocation) ::
        (List.range k).map
          (fun p => (⟨nid, ((i + 1) + p) % U16MOD, r.toOutPoint, v⟩ : Allocation)) =
        (List.range (k + 1)).map
          (fun p => (⟨nid, (i + p) % U16MOD, r.toOutPoint, v⟩ : Allocation)) := by
      rw [List.range_succ_eq_map, List.map_cons, List.map_map]
      congr 1
      apply List.map_congr_left
      intro p _
      simp only [Function.comp_apply]
      rw [show (i + 1) + p = i + Nat.succ p from by omega]
    rw [List.singleton_append, hlist]

/-- One unfolding step of the genesis assets loop at a revealed
direct-outpoint state (stated with a variable tail so that no deep
reduction is ever attempted). -/
theorem processAssets_cons_revealed (nid : Nat) (r : OutpointReveal) (v : ValueRevealed)
    (rest : List PedersenOwnedState) (i : Nat) (m : List (OutPoint × List Allocation)) :
    processAssets nid (PedersenOwnedState.Revealed (.TxOutpoint r) v :: rest) i m =
      processAssets nid rest (i + 1)
        (mapPush m r.toOutPoint ⟨nid, i % U16MOD, r.toOutPoint, v⟩) := rfl

/-- Counterexample to C9 as stated: a genesis with `2^16 + 1` identical
revealed asset-ownership rights derives successfully, but the `index as
u16` truncation collides positions 0 and 65536, so the derived asset's
single bucket already contains two structurally equal allocations before
any mutation. -/
theorem C9_u16_truncation_counterexample :
    Asset.tryFrom cexGenesisC9 =
        .ok (mkAsset cexGenesisC9 0 1000 "TCK" "Token" 1600000000 []
          AccountingAmount.default) ∧
      ¬ NoDupBuckets
        (applyOps
          (mkAsset cexGenesisC9 0 1000 "TCK" "Token" 1600000000 []
            AccountingAmount.default) []).known_allocations := by
  constructor
  · rfl
  · intro hnd
    have e1 : cexGenesisC9.contract_id = 77 := rfl
    have e2 : cexGenesisC9.assetsAssignments.getD [] =
        List.replicate (U16MOD + 1)
          (PedersenOwnedState.Revealed (.TxOutpoint ⟨3, 1, 0⟩) ⟨10, 1⟩) := rfl
    have hstep : (applyOps
        (mkAsset cexGenesisC9 0 1000 "TCK" "Token" 1600000000 []
          AccountingAmount.default) []).known_allocations =
        processAssets 77
          (List.replicate (U16MOD + 1)
            (PedersenOwnedState.Revealed (.TxOutpoint ⟨3, 1, 0⟩) ⟨10, 1⟩)) 0 [] := by
      show (mkAsset cexGenesisC9 0 1000 "TCK" "Token" 1600000000 []
          AccountingAmount.default).known_allocations = _
      simp only [mkAsset]
      rw [e1, e2]
    have h1 : processAssets 77
        (List.replicate (U16MOD + 1)
          (PedersenOwnedState.Revealed (.TxOutpoint ⟨3, 1, 0⟩) ⟨10, 1⟩)) 0 [] =
        [(OutpointReveal.toOutPoint ⟨3, 1, 0⟩,
          (⟨77, 0 % U16MOD, OutpointReveal.toOutPoint ⟨3, 1, 0⟩, ⟨10, 1⟩⟩ : Allocation) ::
            (List.range U16MOD).map (fun p =>
              (⟨77, (1 + p) % U16MOD, OutpointReveal.toOutPoint ⟨3, 1, 0⟩,
                ⟨10, 1⟩⟩ : Allocation)))] := by
      rw [List.replicate_succ, processAssets_cons_revealed]
      rw [show mapPush ([] : List (OutPoint × List Allocation))
          (OutpointReveal.toOutPoint ⟨3, 1, 0⟩)
          (⟨77, 0 % U16MOD, OutpointReveal.toOutPoint ⟨3, 1, 0⟩, ⟨10, 1⟩⟩ : Allocation) =
          [(OutpointReveal.toOutPoint ⟨3, 1, 0⟩,
            [⟨77, 0 % U16MOD, OutpointReveal.toOutPoint ⟨3, 1, 0⟩, ⟨10, 1⟩⟩])] from rfl]
      rw [processAssets_replicate_single 77 ⟨3, 1, 0⟩ ⟨10, 1⟩ U16MOD 1
        [⟨77, 0 % U16MOD, OutpointReveal.toOutPoint ⟨3, 1, 0⟩, ⟨10, 1⟩⟩]]
      rw [List.singleton_append]
    have hget : mapGet (applyOps
        (mkAsset cexGenesisC9 0 1000 "TCK" "Token" 1600000000 []
          AccountingAmount.default) []).known_allocations
        (OutpointReveal.toOutPoint ⟨3, 1, 0⟩) =
        some ((⟨77, 0 % U16MOD, OutpointReveal.toOutPoint ⟨3, 1, 0⟩, ⟨10, 1⟩⟩ : Allocation) ::
          (List.range U16MOD).map (fun p =>
            (⟨77, (1 + p) % U16MOD, OutpointReveal.toOutPoint ⟨3, 1, 0⟩,
              ⟨10, 1⟩⟩ : Allocation))) := by
      rw [hstep, h1]
      simp [mapGet]
    have hnodup := hnd (OutpointReveal.toOutPoint ⟨3, 1, 0⟩) _ hget
    rw [List.nodup_cons] at hnodup
    apply hnodup.1
    refine List.mem_map.mpr ⟨U16MOD - 1, List.mem_range.mpr (by decide), ?_⟩
    decide

/-! ## The decimal round-trip -/

